import Mathlib

/-!
Shallow embedding of the SecureSheets client library (the NECOM repository).

The repository holds several versions of the same client SDK:
* `securesheets_client.js` (v1.0.0) — namespace `Client100` below;
* `securesheets_V1_2_0.js` (v1.2.0) — namespace `V120` below;
* `securesheets_client_v130.js` (v1.3.0) — namespace `V130` below;
* `src/unnamed/part_000` (the v3.8.1 client, object `SecureSheetsClient`) —
  namespace `Client381` below.

Machine integers are modelled as `Nat` (all quantities involved are
non-negative millisecond timestamps and counters well below 2^53, where JS
number arithmetic is exact).  The CryptoJS HMAC-SHA256 primitive is an
external dependency of the repository, not code of the repository; it is
embedded as an oracle argument `hmac : String → String → String`
(respectively `Option (String → String → String)`, `none` meaning the
CryptoJS global is absent and `computeHMAC` throws).  `Math.random`-derived
data is likewise passed in as explicit candidate/randomness arguments.
-/

namespace SecureSheets

/-- JS primitive values that occur as request-parameter values. -/
inductive JSVal where
  | vStr (s : String)
  | vNum (n : Int)
  | vBool (b : Bool)
  | vNull
  | vUndefined
deriving DecidableEq, Repr

/-- Coercion of a JS value to a string, as performed by a template literal
or `String(x)`: `null` renders as `"null"`, `undefined` as `"undefined"`. -/
def templateToString : JSVal → String
  | .vStr s => s
  | .vNum n => toString n
  | .vBool b => cond b "true" "false"
  | .vNull => "null"
  | .vUndefined => "undefined"

/-- JS truthiness of a value. -/
def jsTruthy : JSVal → Bool
  | .vStr s => s ≠ ""
  | .vNum n => n ≠ 0
  | .vBool b => b
  | .vNull => false
  | .vUndefined => false

/-- Coercion `String(v || '')` used by `generateSignature` in v1.3.0:
falsy values (`null`, `undefined`, `''`, `0`, `false`) render as `""`. -/
def stringOrEmpty (v : JSVal) : String :=
  if jsTruthy v then templateToString v else ""

/-- A JS object, as an insertion-ordered association list.  A well-formed
object has no duplicate keys. -/
abbrev JSObj := List (String × JSVal)

/-- Property read `o[k]`; absent keys give `undefined`. -/
def objGet (o : JSObj) (k : String) : JSVal :=
  (o.lookup k).getD .vUndefined

/-- Property write `o[k] = v`: an existing key is overwritten in place,
a new key is appended (JS insertion order). -/
def objSet : JSObj → String → JSVal → JSObj
  | [], k, v => [(k, v)]
  | (k', v') :: rest, k, v =>
    if k' = k then (k', v) :: rest else (k', v') :: objSet rest k v

/-- Object spread `{base, ...extra}`: the fields of `extra` written over
`base` one by one, in order. -/
def objMerge (base extra : JSObj) : JSObj :=
  extra.foldl (fun acc kv => objSet acc kv.1 kv.2) base

/-- Rendering of a JS value inside `JSON.stringify` output.  String escaping
is not modelled (the keys and values used in this development contain no
quotes or backslashes). -/
def jsonValString : JSVal → String
  | .vStr s => "\"" ++ s ++ "\""
  | .vNum n => toString n
  | .vBool b => cond b "true" "false"
  | .vNull => "null"
  | .vUndefined => "undefined"

/-- `JSON.stringify` of a flat object (fields with value `undefined` are
dropped, as in JS). -/
def jsonStringify (o : JSObj) : String :=
  "\x7b" ++
    String.intercalate ","
      ((o.filter (fun kv => decide (kv.2 ≠ JSVal.vUndefined))).map
        (fun kv => "\"" ++ kv.1 ++ "\":" ++ jsonValString kv.2)) ++
  "\x7d"

/-! ### The signer

`createSignature` (v1.0.0 `securesheets_client.js` lines 117-131, and
verbatim the same algorithm in the v3.8.1 client, `part_000` lines
129-147) and `generateSignature` (v1.3.0 lines 572-579) both build the
canonical string `key1=value1&key2=value2&...` over the lexicographically
sorted key list and feed it to HMAC-SHA256.  They differ only in the value
coercion: `createSignature` interpolates the raw value into a template
literal, `generateSignature` uses `String(params[key] || '')`. -/

/-- `Object.keys(params).sort()`: the keys of the object, sorted by the JS
default comparator (lexicographic on the string contents). -/
def sortedKeys (params : JSObj) : List String :=
  (params.map Prod.fst).mergeSort (fun a b => a ≤ b)

/-- The canonical `k=v&...` string over the sorted keys, for a given value
renderer. -/
def canonicalString (render : JSVal → String) (params : JSObj) : String :=
  String.intercalate "&"
    ((sortedKeys params).map (fun key => key ++ "=" ++ render (objGet params key)))

namespace Client100

/-- Canonical signature string of `createSignature` (v1.0.0): values are
interpolated with a template literal. -/
def signatureString (params : JSObj) : String :=
  canonicalString templateToString params

/-- `SecureSheets.createSignature(params, secret)` of v1.0.0; `hmac` is the
CryptoJS `HmacSHA256 |> toString` oracle. -/
def createSignature (hmac : String → String → String) (params : JSObj)
    (secret : String) : String :=
  hmac (signatureString params) secret

end Client100

namespace Client381

/-- `SecureSheetsClient.createSignature` of the v3.8.1 client
(`part_000` lines 129-147); the algorithm is identical to v1.0.0's. -/
def createSignature (hmac : String → String → String) (params : JSObj)
    (secret : String) : String :=
  hmac (canonicalString templateToString params) secret

end Client381

namespace V130

/-- Canonical signature string of `generateSignature` (v1.3.0): values are
coerced with `String(params[key] || '')`. -/
def signatureString (params : JSObj) : String :=
  canonicalString stringOrEmpty params

/-- `SecureSheets.generateSignature(params)` of v1.3.0; the secret is
taken from the configured `hmacSecret`. -/
def generateSignature (hmac : String → String → String) (hmacSecret : String)
    (params : JSObj) : String :=
  hmac (signatureString params) hmacSecret

end V130

/-! ### Supporting lemmas about sorted keys and lookups -/

theorem mergeSort_eq_of_perm (l₁ l₂ : List String) (h : List.Perm l₁ l₂) :
    l₁.mergeSort (fun a b => a ≤ b) = l₂.mergeSort (fun a b => a ≤ b) := by
  apply List.eq_of_perm_of_sorted (r := (· ≤ ·))
  · exact ((List.mergeSort_perm l₁ _).trans (h.trans (List.mergeSort_perm l₂ _).symm))
  · exact List.sorted_mergeSort' l₁
  · exact List.sorted_mergeSort' l₂

theorem sortedKeys_perm (p q : JSObj) (h : List.Perm p q) :
    sortedKeys p = sortedKeys q :=
  mergeSort_eq_of_perm _ _ (h.map Prod.fst)

theorem lookup_perm {p q : JSObj} (h : List.Perm p q)
    (nd : (p.map Prod.fst).Nodup) (k : String) : p.lookup k = q.lookup k := by
  induction h with
  | nil => rfl
  | cons x _ ih =>
    simp only [List.map_cons, List.nodup_cons] at nd
    simp only [List.lookup]
    cases hk : (k == x.1) <;> simp [ih nd.2]
  | swap x y l =>
    simp only [List.map_cons, List.nodup_cons, List.mem_cons] at nd
    have hne : y.1 ≠ x.1 := fun hc => nd.1 (Or.inl hc)
    simp only [List.lookup]
    cases hky : (k == y.1) <;> cases hkx : (k == x.1) <;> simp
    exact absurd ((beq_iff_eq.mp hky).symm.trans (beq_iff_eq.mp hkx)) hne
  | trans h₁ h₂ ih₁ ih₂ =>
    refine (ih₁ nd).trans (ih₂ ?_)
    exact (h₁.map Prod.fst).nodup nd

theorem objGet_perm {p q : JSObj} (h : List.Perm p q)
    (nd : (p.map Prod.fst).Nodup) (k : String) : objGet p k = objGet q k := by
  simp [objGet, lookup_perm h nd k]

theorem canonicalString_perm (render : JSVal → String) {p q : JSObj}
    (h : List.Perm p q) (nd : (p.map Prod.fst).Nodup) :
    canonicalString render p = canonicalString render q := by
  unfold canonicalString
  rw [sortedKeys_perm p q h]
  congr 1
  refine List.map_congr_left ?_
  intro key _
  rw [objGet_perm h nd key]

/-- C1.  For every parameter mapping `p` (no duplicate keys, as for a JS
object) and any permutation `q` of its entries, `createSignature` (v1.0.0)
and `generateSignature` (v1.3.0) produce identical signatures: the
canonical string is built from the lexicographically sorted key list, so
the signature is invariant under key insertion order. -/
theorem c1_sign_insertion_order_invariant
    (hmac : String → String → String) (secret : String) (p q : JSObj)
    (h : List.Perm p q) (nd : (p.map Prod.fst).Nodup) :
    Client100.createSignature hmac p secret = Client100.createSignature hmac q secret
    ∧ V130.generateSignature hmac secret p = V130.generateSignature hmac secret q := by
  constructor
  · unfold Client100.createSignature Client100.signatureString
    rw [canonicalString_perm templateToString h nd]
  · unfold V130.generateSignature V130.signatureString
    rw [canonicalString_perm stringOrEmpty h nd]

/-- C1 witness: a concrete two-key object and its shuffle. -/
theorem c1_sign_insertion_order_invariant_witness :
    Client100.createSignature (fun m s => m ++ "#" ++ s)
        [("b", JSVal.vStr "2"), ("a", JSVal.vStr "1")] "sec"
      = Client100.createSignature (fun m s => m ++ "#" ++ s)
        [("a", JSVal.vStr "1"), ("b", JSVal.vStr "2")] "sec"
    ∧ V130.generateSignature (fun m s => m ++ "#" ++ s) "sec"
        [("b", JSVal.vStr "2"), ("a", JSVal.vStr "1")]
      = V130.generateSignature (fun m s => m ++ "#" ++ s) "sec"
        [("a", JSVal.vStr "1"), ("b", JSVal.vStr "2")] :=
  c1_sign_insertion_order_invariant (fun m s => m ++ "#" ++ s) "sec"
    [("b", JSVal.vStr "2"), ("a", JSVal.vStr "1")]
    [("a", JSVal.vStr "1"), ("b", JSVal.vStr "2")]
    (by decide) (by decide)

/-! ### Rate limiter

`checkRateLimit` is character-for-character the same algorithm in v1.0.0
(`securesheets_client.js` lines 140-162), v1.2.0 (lines 352-374) and
v1.3.0 (lines 655-675): reset the window when more than one hour has
passed, throw when the count has reached `maxRequests` (the thrown error
carries the reset time `requestWindow + oneHour`), otherwise increment.
One shared embedding covers all three. -/

structure RateState where
  requestCount : Nat
  requestWindow : Nat
deriving DecidableEq, Repr

def oneHour : Nat := 60 * 60 * 1000

/-- `SecureSheets.checkRateLimit()`, with the current clock value and the
mutable counters passed explicitly.  `.error r` models the thrown
`Rate limit exceeded` error, whose message displays the reset time `r`. -/
def checkRateLimit (rateLimitEnabled : Bool) (maxRequests : Nat) (now : Nat)
    (s : RateState) : Except Nat RateState :=
  if !rateLimitEnabled then .ok s
  else
    let s1 : RateState :=
      if now - s.requestWindow > oneHour then ⟨0, now⟩ else s
    if s1.requestCount ≥ maxRequests then .error (s1.requestWindow + oneHour)
    else .ok ⟨s1.requestCount + 1, s1.requestWindow⟩

/-- A sequence of `checkRateLimit` calls at the given clock values,
stopping at the first failure. -/
def runRateCalls (rateLimitEnabled : Bool) (maxRequests : Nat)
    (ts : List Nat) (s : RateState) : Except Nat RateState :=
  match ts with
  | [] => .ok s
  | t :: rest =>
    match checkRateLimit rateLimitEnabled maxRequests t s with
    | .error e => .error e
    | .ok s1 => runRateCalls rateLimitEnabled maxRequests rest s1

theorem runRateCalls_within (maxRequests : Nat) (w : Nat) :
    ∀ (ts : List Nat) (c : Nat), (∀ t ∈ ts, t - w ≤ oneHour) →
      c + ts.length ≤ maxRequests →
      runRateCalls true maxRequests ts ⟨c, w⟩ = .ok ⟨c + ts.length, w⟩ := by
  intro ts
  induction ts with
  | nil => intro c _ _; simp [runRateCalls]
  | cons t rest ih =>
    intro c hts hlen
    have ht : t - w ≤ oneHour := hts t (List.mem_cons_self t rest)
    have hc : checkRateLimit true maxRequests t ⟨c, w⟩ = .ok ⟨c + 1, w⟩ := by
      unfold checkRateLimit
      have hreset : ¬ (t - w > oneHour) := by omega
      simp only [Bool.not_true, Bool.false_eq_true, if_false, hreset, if_neg hreset]
      have hcnt : ¬ (c ≥ maxRequests) := by
        simp only [List.length_cons] at hlen; omega
      simp [hcnt]
    rw [runRateCalls, hc]
    have hrest := ih (c + 1) (fun t' ht' => hts t' (List.mem_cons_of_mem _ ht'))
      (by simp only [List.length_cons] at hlen; omega)
    simp only []
    rw [hrest]
    simp only [List.length_cons]
    congr 2
    omega

/-- C2.  With rate limiting enabled and a positive quota (`maxRequests` is
always positive: the default is 100 and `configure` ignores a zero value):
after exactly `maxRequests` successful `checkRateLimit` calls within one
hour of the window start `w`, the state is `⟨maxRequests, w⟩` and the next
call within the hour fails carrying the reset time `w + oneHour`; and any
call arriving when `now - requestWindow` exceeds one hour resets the
window, succeeds, and leaves the count at exactly 1. -/
theorem c2_rate_limiter_window (maxRequests w : Nat) (ts : List Nat)
    (tNext tLate : Nat) (s : RateState)
    (hmax : 1 ≤ maxRequests)
    (hts : ∀ t ∈ ts, t - w ≤ oneHour)
    (hlen : ts.length = maxRequests)
    (hNext : tNext - w ≤ oneHour)
    (hLate : tLate - s.requestWindow > oneHour) :
    runRateCalls true maxRequests ts ⟨0, w⟩ = .ok ⟨maxRequests, w⟩
    ∧ checkRateLimit true maxRequests tNext ⟨maxRequests, w⟩ = .error (w + oneHour)
    ∧ checkRateLimit true maxRequests tLate s = .ok ⟨1, tLate⟩ := by
  refine ⟨?_, ?_, ?_⟩
  · have := runRateCalls_within maxRequests w ts 0 hts (by omega)
    simpa [hlen] using this
  · unfold checkRateLimit
    have hreset : ¬ (tNext - w > oneHour) := by omega
    simp [hreset]
  · unfold checkRateLimit
    simp only [Bool.not_true, Bool.false_eq_true, if_false, hLate, if_pos hLate]
    have : ¬ ((0 : Nat) ≥ maxRequests) := by omega
    simp [this]

/-- C2 witness: quota 2, two calls inside the hour, a third failing call,
and a reset after the hour has passed. -/
theorem c2_rate_limiter_window_witness :
    runRateCalls true 2 [10, 20] ⟨0, 0⟩ = .ok ⟨2, 0⟩
    ∧ checkRateLimit true 2 30 ⟨2, 0⟩ = .error (0 + oneHour)
    ∧ checkRateLimit true 2 7200001 ⟨2, 0⟩ = .ok ⟨1, 7200001⟩ :=
  c2_rate_limiter_window 2 0 [10, 20] 30 7200001 ⟨2, 0⟩
    (by decide) (by decide) (by decide) (by decide) (by decide)

/-! ### Response cache

The cache is a JS `Map` from string keys to `{data, expiry}` entries,
embedded as a function `String → Option CacheEntry`.  v1.2.0 (lines
425-459) and v1.3.0 (lines 722-752) share one implementation (`V120`
below): `getCached` returns the stored data unchanged and lazily deletes
expired entries; `setCached` stamps `expiry = now + cacheTimeout`.
v1.0.0 (`Client100`, lines 172-208) differs: both operations are gated on
`config.enableCache`, `setCached` takes a per-call `ttl` in seconds, and
a cache hit returns `{ ...cached.data, fromCache: true }` rather than the
stored object itself. -/

structure CacheEntry where
  data : JSObj
  expiry : Nat
deriving DecidableEq, Repr

abbrev CacheMap := String → Option CacheEntry

def emptyCache : CacheMap := fun _ => none

/-- Deletion `cache.delete(key)`. -/
def cacheDelete (cache : CacheMap) (key : String) : CacheMap :=
  fun k => if k = key then none else cache k

namespace V120

/-- `SecureSheets.getCached(key)` of v1.2.0/v1.3.0: a stale entry
(`now > expiry`) is deleted and reported as a miss. -/
def getCached (now : Nat) (cache : CacheMap) (key : String) :
    Option JSObj × CacheMap :=
  match cache key with
  | none => (none, cache)
  | some cached =>
    if now > cached.expiry then (none, cacheDelete cache key)
    else (some cached.data, cache)

/-- `SecureSheets.setCached(key, data)` of v1.2.0/v1.3.0: unconditional
overwrite with `expiry = now + config.cacheTimeout`. -/
def setCached (cacheTimeout : Nat) (now : Nat) (cache : CacheMap)
    (key : String) (data : JSObj) : CacheMap :=
  fun k => if k = key then some ⟨data, now + cacheTimeout⟩ else cache k

end V120

namespace Client100

/-- `SecureSheets.getCached(key)` of v1.0.0: returns `null` whenever
caching is disabled; a hit returns a copy of the data with an extra
`fromCache: true` field. -/
def getCached (enableCache : Bool) (now : Nat) (cache : CacheMap)
    (key : String) : Option JSObj × CacheMap :=
  if !enableCache then (none, cache)
  else
    match cache key with
    | none => (none, cache)
    | some cached =>
      if now > cached.expiry then (none, cacheDelete cache key)
      else (some (objSet cached.data "fromCache" (.vBool true)), cache)

/-- `SecureSheets.setCached(key, data, ttl)` of v1.0.0: no-op when caching
is disabled, otherwise overwrite with `expires = now + ttl * 1000`
(`ttl` in seconds, default 300). -/
def setCached (enableCache : Bool) (now : Nat) (cache : CacheMap)
    (key : String) (data : JSObj) (ttl : Nat) : CacheMap :=
  if !enableCache then cache
  else fun k => if k = key then some ⟨data, now + ttl * 1000⟩ else cache k

end Client100

/-- C3 counterexample.  The claim says `set(k, v, ttl)` followed by an
immediate `get(k)` returns exactly `v` in both cited implementations; in
v1.0.0 (`securesheets_client.js`), `getCached` returns the stored object
enriched with `fromCache: true`, which differs from `v` — here for the
concrete value `v = {}` the hit returns `{fromCache: true}`. -/
theorem c3_cache_counterexample :
    (Client100.getCached true 0
        (Client100.setCached true 0 emptyCache "k" [] 300) "k").1
      = some [("fromCache", JSVal.vBool true)]
    ∧ (Client100.getCached true 0
        (Client100.setCached true 0 emptyCache "k" [] 300) "k").1
      ≠ some ([] : JSObj) := by
  constructor
  · rfl
  · decide

/-- C3 as amended.  In v1.2.0/v1.3.0, `set(k, v)` followed by an immediate
`get(k)` returns exactly `v`; in v1.0.0 (with caching enabled) it returns
`v` enriched with `fromCache: true`.  In both implementations a `get(k)`
at any time after the entry's expiry is a miss that deletes the entry, and
every later `get(k)` with no intervening `set` is also a miss and leaves
the cache unchanged. -/
theorem c3_cache_amended :
    (∀ (cacheTimeout now : Nat) (cache : CacheMap) (k : String) (d : JSObj),
      (V120.getCached now (V120.setCached cacheTimeout now cache k d) k).1 = some d)
    ∧ (∀ (later : Nat) (cache : CacheMap) (k : String) (e : CacheEntry),
        cache k = some e → e.expiry < later →
        V120.getCached later cache k = (none, cacheDelete cache k)
        ∧ (cacheDelete cache k) k = none
        ∧ ∀ evenLater : Nat,
            V120.getCached evenLater (cacheDelete cache k) k
              = (none, cacheDelete cache k))
    ∧ (∀ (now : Nat) (cache : CacheMap) (k : String) (d : JSObj) (ttl : Nat),
        (Client100.getCached true now
            (Client100.setCached true now cache k d ttl) k).1
          = some (objSet d "fromCache" (.vBool true)))
    ∧ (∀ (later : Nat) (cache : CacheMap) (k : String) (e : CacheEntry),
        cache k = some e → e.expiry < later →
        Client100.getCached true later cache k = (none, cacheDelete cache k)
        ∧ ∀ evenLater : Nat,
            Client100.getCached true evenLater (cacheDelete cache k) k
              = (none, cacheDelete cache k)) := by
  refine ⟨?_, ?_, ?_, ?_⟩
  · intro cacheTimeout now cache k d
    unfold V120.getCached V120.setCached
    simp
  · intro later cache k e hk he
    have hdel : (cacheDelete cache k) k = none := by simp [cacheDelete]
    refine ⟨?_, hdel, ?_⟩
    · unfold V120.getCached
      rw [hk]
      simp [he]
    · intro evenLater
      unfold V120.getCached
      rw [hdel]
  · intro now cache k d ttl
    unfold Client100.getCached Client100.setCached
    simp
  · intro later cache k e hk he
    have hdel : (cacheDelete cache k) k = none := by simp [cacheDelete]
    constructor
    · unfold Client100.getCached
      rw [hk]
      simp [he]
    · intro evenLater
      unfold Client100.getCached
      rw [hdel]
      simp

/-- C3 witness: the amended statement applied at a concrete stale entry. -/
theorem c3_cache_amended_witness :
    V120.getCached 400001 (fun k => if k = "k" then some ⟨[], 400000⟩ else none) "k"
      = (none, cacheDelete (fun k => if k = "k" then some ⟨[], 400000⟩ else none) "k")
    ∧ (cacheDelete (fun k => if k = "k" then some ⟨[], 400000⟩ else none) "k") "k"
      = none
    ∧ ∀ evenLater : Nat,
        V120.getCached evenLater
            (cacheDelete (fun k => if k = "k" then some ⟨[], 400000⟩ else none) "k") "k"
          = (none, cacheDelete (fun k => if k = "k" then some ⟨[], 400000⟩ else none) "k") :=
  c3_cache_amended.2.1 400001
    (fun k => if k = "k" then some ⟨[], 400000⟩ else none) "k" ⟨[], 400000⟩
    (by decide) (by decide)

/-! ### Nonce generator

`generateNonce` is the same code in v1.2.0 (lines 206-233) and v1.3.0
(lines 585-611).  Candidates come from `Date.now().toString(36)` plus nine
random base-36 characters; the candidate stream is embedded as an oracle
`cands : Nat → String` giving the i-th candidate drawn by the do/while
loop.  The used-nonce `Set` is embedded as an insertion-ordered list
without duplicates; `values().next().value` is its head. -/

/-- `Set.add`: append when absent, no-op when present. -/
def setAdd (used : List String) (nonce : String) : List String :=
  if used.contains nonce then used else used ++ [nonce]

instance {ε α : Type} [DecidableEq ε] [DecidableEq α] :
    DecidableEq (Except ε α) := fun x y =>
  match x, y with
  | .error a, .error b => decidable_of_iff (a = b) (by simp)
  | .error _, .ok _ => isFalse (by simp)
  | .ok _, .error _ => isFalse (by simp)
  | .ok a, .ok b => decidable_of_iff (a = b) (by simp)

/-- The do/while candidate loop of `generateNonce`: draw `cands i`, count
the attempt, and repeat while the candidate collides and fewer than 10
attempts have been made.  Returns the last candidate drawn and the number
of attempts.  The fuel argument (10 at the top call) only makes the
recursion structural; the `attempts < 10` guard is what stops the loop. -/
def nonceLoop (cands : Nat → String) (used : List String) :
    Nat → Nat → String × Nat
  | _, 0 => ("", 0)
  | i, fuel + 1 =>
    let nonce := cands i
    let attempts := i + 1
    if used.contains nonce && decide (attempts < 10) then
      nonceLoop cands used (i + 1) fuel
    else (nonce, attempts)

/-- `SecureSheets.generateNonce()`:  `.ok (none, used)` models the early
`return null` when nonces are disabled; `.error ()` models the thrown
`Failed to generate unique nonce`; otherwise the nonce is added to the
used set and, when the set has grown beyond 1000 entries, the oldest
(first-inserted) entry is evicted. -/
def generateNonce (enableNonce : Bool) (cands : Nat → String)
    (used : List String) : Except Unit (Option String × List String) :=
  if !enableNonce then .ok (none, used)
  else
    match nonceLoop cands used 0 10 with
    | (nonce, attempts) =>
      if attempts ≥ 10 then .error ()
      else
        .ok (some nonce,
          if (setAdd used nonce).length > 1000 then (setAdd used nonce).tail
          else setAdd used nonce)

/-- A run of `n` `generateNonce` calls from a given used set; the k-th
call draws the constant candidate `f k`. -/
def runNonces (enableNonce : Bool) (f : Nat → String) (used : List String) :
    Nat → Except Unit (List String)
  | 0 => .ok used
  | n + 1 =>
    match runNonces enableNonce f used n with
    | .error e => .error e
    | .ok u =>
      match generateNonce enableNonce (fun _ => f n) u with
      | .error e => .error e
      | .ok (_, u1) => .ok u1

/-- C6 (code bug).  The loop exit condition `has(nonce) && attempts < 10`
followed by the check `attempts >= 10` makes `generateNonce` throw
whenever the first 9 candidates collide — even when the 10th candidate is
fresh.  Here the used set holds exactly the first 9 candidates and the
10th candidate `"fresh"` does not collide, yet the call throws instead of
inserting and returning `"fresh"` as the claim (and §4.2 of the spec)
requires. -/
theorem c6_nonce_exhaustion_bug :
    generateNonce true
        (fun i => if i < 9 then "n" ++ Nat.repr i else "fresh")
        ["n0", "n1", "n2", "n3", "n4", "n5", "n6", "n7", "n8"]
      = .error ()
    ∧ (["n0", "n1", "n2", "n3", "n4", "n5", "n6", "n7", "n8"].contains
        ((fun i => if i < 9 then "n" ++ Nat.repr i else "fresh") 9)) = false
    ∧ (nonceLoop (fun i => if i < 9 then "n" ++ Nat.repr i else "fresh")
        ["n0", "n1", "n2", "n3", "n4", "n5", "n6", "n7", "n8"] 0 10).1
      = "fresh" := by
  refine ⟨by decide, by decide, by decide⟩

theorem nonceLoop_exit (cands : Nat → String) (u : List String) (i fuel : Nat)
    (h : u.contains (cands i) = false) :
    nonceLoop cands u i (fuel + 1) = (cands i, i + 1) := by
  unfold nonceLoop
  simp only [h, Bool.false_and, Bool.false_eq_true, if_false]

theorem generateNonce_fresh (f : Nat → String) (k : Nat) (u : List String)
    (hfresh : u.contains (f k) = false) :
    generateNonce true (fun _ => f k) u
      = .ok (some (f k),
          if (u ++ [f k]).length > 1000 then (u ++ [f k]).tail else u ++ [f k]) := by
  have hloop : nonceLoop (fun _ => f k) u 0 10 = (f k, 1) :=
    nonceLoop_exit (fun _ => f k) u 0 9 hfresh
  have hadd : setAdd u (f k) = u ++ [f k] := by
    unfold setAdd
    rw [if_neg (by rw [hfresh]; simp)]
  unfold generateNonce
  simp only [Bool.not_true, Bool.false_eq_true, if_false]
  rw [hloop]
  simp only []
  rw [if_neg (show ¬ ((1 : Nat) ≥ 10) by omega), hadd]

theorem notContains_of_inj (f : Nat → String) (hinj : Function.Injective f)
    (k n : Nat) (hkn : n ≤ k) :
    ((List.range n).map f).contains (f k) = false := by
  have hmem : f k ∉ (List.range n).map f := by
    simp only [List.mem_map, List.mem_range]
    rintro ⟨j, hj, hfj⟩
    exact absurd (hinj hfj) (by omega)
  simpa using hmem

theorem runNonces_range (f : Nat → String) (hinj : Function.Injective f) :
    ∀ n : Nat, n ≤ 1000 →
      runNonces true f [] n = .ok ((List.range n).map f) := by
  intro n
  induction n with
  | zero => intro _; simp [runNonces]
  | succ k ih =>
    intro hk
    have hrun := ih (by omega)
    rw [runNonces, hrun]
    simp only []
    have hnotbig : ¬ (((List.range k).map f ++ [f k]).length > 1000) := by
      simp only [List.length_append, List.length_map, List.length_range,
        List.length_cons, List.length_nil]
      omega
    rw [generateNonce_fresh f k _ (notContains_of_inj f hinj k k (by omega)),
      if_neg hnotbig]
    simp only []
    have hstep : (List.range k).map f ++ [f k] = (List.range (k + 1)).map f := by
      rw [List.range_succ, List.map_append, List.map_cons, List.map_nil]
    rw [hstep]

/-- C7.  First conjunct: the used-nonce set never exceeds 1000 entries at
the completion of a `generateNonce` call (the invariant of §3).  Second
conjunct: starting from an empty set, 1001 consecutive successful
generations (each first candidate fresh, candidates pairwise distinct)
leave the set at exactly 1000 entries, with the first-ever generated nonce
`f 0` evicted (oldest-first, insertion order). -/
theorem c7_nonce_set_bound :
    (∀ (enableNonce : Bool) (cands : Nat → String) (used : List String)
        (r : Option String × List String),
      used.length ≤ 1000 → generateNonce enableNonce cands used = .ok r →
      r.2.length ≤ 1000)
    ∧ (∀ f : Nat → String, Function.Injective f →
        runNonces true f [] 1001
          = .ok ((List.range 1000).map (fun j => f (j + 1)))
        ∧ ((List.range 1000).map (fun j => f (j + 1))).length = 1000
        ∧ f 0 ∉ (List.range 1000).map (fun j => f (j + 1))) := by
  constructor
  · intro enableNonce cands used r hlen hok
    unfold generateNonce at hok
    split at hok
    · injection hok with h
      subst h
      simpa using hlen
    · rcases hn : nonceLoop cands used 0 10 with ⟨nonce, attempts⟩
      rw [hn] at hok
      simp only [] at hok
      have hsa : (setAdd used nonce).length ≤ used.length + 1 := by
        unfold setAdd
        by_cases hc : used.contains nonce = true
        · rw [if_pos hc]; omega
        · rw [if_neg hc]; simp
      split at hok
      · exact absurd hok (by simp)
      · injection hok with h
        subst h
        simp only []
        split
        · have ht := List.length_tail (setAdd used nonce)
          omega
        · next hbig => omega
  · intro f hinj
    have h1000 := runNonces_range f hinj 1000 (by omega)
    have hshape : runNonces true f [] 1001
        = .ok ((List.range 1000).map (fun j => f (j + 1))) := by
      rw [runNonces, h1000]
      simp only []
      have hbig : ((List.range 1000).map f ++ [f 1000]).length > 1000 := by
        simp only [List.length_append, List.length_map, List.length_range,
          List.length_cons, List.length_nil]
        omega
      rw [generateNonce_fresh f 1000 _
          (notContains_of_inj f hinj 1000 1000 (by omega)), if_pos hbig]
      simp only []
      have happ : (List.range 1000).map f ++ [f 1000]
          = (List.range 1001).map f := by
        conv_rhs => rw [List.range_succ, List.map_append, List.map_cons,
          List.map_nil]
      rw [happ]
      have hsucc : (List.range 1001).map f
          = f 0 :: (List.range 1000).map (fun j => f (j + 1)) := by
        rw [List.range_succ_eq_map]
        simp [Function.comp]
      rw [hsucc, List.tail_cons]
    refine ⟨hshape, by simp, ?_⟩
    simp only [List.mem_map, List.mem_range]
    rintro ⟨j, _, hfj⟩
    have := hinj hfj
    omega

/-- C7 witness: the bound applied to a disabled call on an empty set, and
the 1001-generation scenario with the injective candidate family
`n ↦ "aa...a" (n copies)`. -/
theorem c7_nonce_set_bound_witness :
    ((none : Option String), ([] : List String)).2.length ≤ 1000
    ∧ (runNonces true (fun n => (List.replicate n 'a').asString) [] 1001
        = .ok ((List.range 1000).map
            (fun j => (List.replicate (j + 1) 'a').asString))
      ∧ ((List.range 1000).map
          (fun j => (List.replicate (j + 1) 'a').asString)).length = 1000
      ∧ (List.replicate 0 'a').asString
          ∉ (List.range 1000).map
              (fun j => (List.replicate (j + 1) 'a').asString)) := by
  constructor
  · exact c7_nonce_set_bound.1 false (fun _ => "x") [] (none, [])
      (by decide) (by rfl)
  · exact c7_nonce_set_bound.2 (fun n => (List.replicate n 'a').asString)
      (fun a b h => by
        have := congrArg (fun s => s.data.length) h
        simpa using this)

/-! ### Decimal rendering of timestamps

`Date.now()` interpolated into a string renders as the decimal numeral,
i.e. `Nat.repr`.  The lemmas below establish that the numeral consists of
digit characters only and is injective, which is what makes CSRF tokens
minted at different times distinct strings. -/

theorem digitChar_isDigit : ∀ n < 10, (Nat.digitChar n).isDigit = true := by
  decide

theorem digitChar_inj10 :
    ∀ n < 10, ∀ m < 10, Nat.digitChar n = Nat.digitChar m → n = m := by
  decide

theorem toDigitsCore_digits :
    ∀ (fuel n : Nat) (ds : List Char), (∀ c ∈ ds, c.isDigit = true) →
      ∀ c ∈ Nat.toDigitsCore 10 fuel n ds, c.isDigit = true := by
  intro fuel
  induction fuel with
  | zero => intro n ds hds; simpa [Nat.toDigitsCore] using hds
  | succ f ih =>
    intro n ds hds c hc
    rw [Nat.toDigitsCore] at hc
    by_cases h0 : n / 10 = 0
    · simp only [h0, if_pos rfl] at hc
      rcases List.mem_cons.mp hc with h | h
      · subst h; exact digitChar_isDigit _ (Nat.mod_lt _ (by decide))
      · exact hds _ h
    · simp only [h0, if_neg h0] at hc
      refine ih (n / 10) _ ?_ c hc
      intro c' hc'
      rcases List.mem_cons.mp hc' with h | h
      · subst h; exact digitChar_isDigit _ (Nat.mod_lt _ (by decide))
      · exact hds _ h

theorem toDigitsCore_shift :
    ∀ (fuel n : Nat) (ds : List Char),
      Nat.toDigitsCore 10 fuel n ds = Nat.toDigitsCore 10 fuel n [] ++ ds := by
  intro fuel
  induction fuel with
  | zero => intro n ds; simp [Nat.toDigitsCore]
  | succ f ih =>
    intro n ds
    rw [Nat.toDigitsCore, Nat.toDigitsCore]
    by_cases h0 : n / 10 = 0
    · simp [h0]
    · simp only [h0, if_neg h0]
      rw [ih (n / 10) (Nat.digitChar (n % 10) :: ds),
        ih (n / 10) [Nat.digitChar (n % 10)]]
      simp

theorem toDigitsCore_fuel :
    ∀ (n f₁ f₂ : Nat), n < f₁ → n < f₂ →
      Nat.toDigitsCore 10 f₁ n [] = Nat.toDigitsCore 10 f₂ n [] := by
  intro n
  induction n using Nat.strong_induction_on with
  | _ n ihn =>
    intro f₁ f₂ h₁ h₂
    match f₁, f₂ with
    | g₁ + 1, g₂ + 1 =>
      rw [Nat.toDigitsCore, Nat.toDigitsCore]
      by_cases h0 : n / 10 = 0
      · simp [h0]
      · simp only [h0, if_neg h0]
        rw [toDigitsCore_shift g₁, toDigitsCore_shift g₂]
        have hd : n / 10 < n := Nat.div_lt_self (Nat.pos_of_ne_zero (by omega)) (by decide)
        rw [ihn (n / 10) hd g₁ g₂ (by omega) (by omega)]

theorem toDigits_step (n : Nat) :
    Nat.toDigits 10 n =
      if n < 10 then [Nat.digitChar n]
      else Nat.toDigits 10 (n / 10) ++ [Nat.digitChar (n % 10)] := by
  rw [Nat.toDigits, Nat.toDigitsCore]
  by_cases h : n < 10
  · have h0 : n / 10 = 0 := Nat.div_eq_of_lt h
    simp [h0, Nat.mod_eq_of_lt h, h]
  · have h0 : n / 10 ≠ 0 := by omega
    rw [if_neg h0, if_neg h]
    rw [toDigitsCore_shift]
    have hd : n / 10 < n := Nat.div_lt_self (by omega) (by decide)
    rw [toDigitsCore_fuel (n / 10) n (n / 10 + 1) (by omega) (by omega)]
    rfl

theorem toDigits_ne_nil (n : Nat) : Nat.toDigits 10 n ≠ [] := by
  rw [toDigits_step]
  by_cases h : n < 10 <;> simp [h]

theorem toDigits_all_digits (n : Nat) :
    ∀ c ∈ Nat.toDigits 10 n, c.isDigit = true :=
  toDigitsCore_digits (n + 1) n [] (by simp)

theorem toDigits_inj :
    ∀ n m : Nat, Nat.toDigits 10 n = Nat.toDigits 10 m → n = m := by
  intro n
  induction n using Nat.strong_induction_on with
  | _ n ihn =>
    intro m h
    rw [toDigits_step n, toDigits_step m] at h
    by_cases hn : n < 10 <;> by_cases hm : m < 10
    · rw [if_pos hn, if_pos hm] at h
      exact digitChar_inj10 n hn m hm (by simpa using h)
    · rw [if_pos hn, if_neg hm] at h
      have hlen := congrArg List.length h
      have hne := toDigits_ne_nil (m / 10)
      simp at hlen
      exact absurd hlen hne
    · rw [if_neg hn, if_pos hm] at h
      have hlen := congrArg List.length h
      have hne := toDigits_ne_nil (n / 10)
      simp at hlen
      exact absurd hlen hne
    · rw [if_neg hn, if_neg hm] at h
      have h₁ : Nat.toDigits 10 (n / 10) = Nat.toDigits 10 (m / 10) := by
        have hh := congrArg List.dropLast h
        simpa [List.dropLast_concat] using hh
      have h₂ : Nat.digitChar (n % 10) = Nat.digitChar (m % 10) := by
        have hh := congrArg List.getLast? h
        simp only [List.getLast?_concat, Option.some.injEq] at hh
        exact hh
      have hd : n / 10 < n := Nat.div_lt_self (by omega) (by decide)
      have e₁ : n / 10 = m / 10 := ihn (n / 10) hd (m / 10) h₁
      have e₂ : n % 10 = m % 10 :=
        digitChar_inj10 _ (Nat.mod_lt _ (by decide)) _ (Nat.mod_lt _ (by decide)) h₂
      omega

theorem repr_data (n : Nat) : (Nat.repr n).data = Nat.toDigits 10 n := rfl

theorem repr_inj {n m : Nat} (h : Nat.repr n = Nat.repr m) : n = m := by
  apply toDigits_inj
  have h' : (Nat.toDigits 10 n).asString = (Nat.toDigits 10 m).asString := h
  exact congrArg String.data h'

theorem repr_all_digits (n : Nat) :
    ∀ c ∈ (Nat.repr n).data, c.isDigit = true := by
  rw [repr_data]
  exact toDigits_all_digits n

/-- Cancellation for digit blocks: if two all-digit prefixes are each
followed by an underscore separator, equal concatenations force equal
prefixes and equal suffixes. -/
theorem digits_sep_cancel :
    ∀ (l₁ l₂ r₁ r₂ : List Char), (∀ c ∈ l₁, c.isDigit = true) →
      (∀ c ∈ l₂, c.isDigit = true) →
      l₁ ++ '_' :: r₁ = l₂ ++ '_' :: r₂ → l₁ = l₂ ∧ r₁ = r₂ := by
  intro l₁
  induction l₁ with
  | nil =>
    intro l₂ r₁ r₂ _ hd₂ h
    cases l₂ with
    | nil => simpa using h
    | cons c t =>
      exfalso
      simp only [List.nil_append, List.cons_append, List.cons.injEq] at h
      have : ('_' : Char).isDigit = true := h.1 ▸ hd₂ c (List.mem_cons_self c t)
      simp at this
  | cons c t ih =>
    intro l₂ r₁ r₂ hd₁ hd₂ h
    cases l₂ with
    | nil =>
      exfalso
      simp only [List.nil_append, List.cons_append, List.cons.injEq] at h
      have : ('_' : Char).isDigit = true :=
        h.1.symm ▸ hd₁ c (List.mem_cons_self c t)
      simp at this
    | cons c' t' =>
      simp only [List.cons_append, List.cons.injEq] at h
      obtain ⟨hc, hrest⟩ := h
      have := ih t' r₁ r₂ (fun x hx => hd₁ x (List.mem_cons_of_mem _ hx))
        (fun x hx => hd₂ x (List.mem_cons_of_mem _ hx)) hrest
      exact ⟨by rw [hc, this.1], this.2⟩

/-! ### CSRF token manager

`getCSRFToken` / `clearCSRFToken` are the same code in v1.2.0 (lines
270-315) and v1.3.0 (lines 617-645).  The random base-36 suffix
`Math.random().toString(36).substr(2, 16)` is passed in as the oracle
argument `rand`.  The v3.8.1 client (`part_000` lines 158-162) has a
different, stateless design: `generateCSRFToken(origin, secret)` mints
`timestamp + ':' + HMAC(timestamp + ':' + origin, secret)` afresh on
every call, with no caching. -/

structure CSRFState where
  csrfToken : Option String
  csrfExpiry : Option Nat
deriving DecidableEq, Repr

/-- The token string minted by `getCSRFToken`:
`'csrf_' + Date.now() + '_' + <16 random base-36 chars>`. -/
def mintCSRFToken (now : Nat) (rand : String) : String :=
  "csrf_" ++ Nat.repr now ++ "_" ++ rand

namespace V120

/-- `SecureSheets.getCSRFToken()` of v1.2.0/v1.3.0: `null` when CSRF is
disabled; a cached unexpired token is returned unchanged; otherwise a new
token is minted and stored with `csrfExpiry = now + 30 minutes`. -/
def getCSRFToken (enableCSRF : Bool) (now : Nat) (rand : String)
    (s : CSRFState) : Option String × CSRFState :=
  if !enableCSRF then (none, s)
  else
    match s.csrfToken, s.csrfExpiry with
    | some t, some e =>
      if now < e then (some t, s)
      else (some (mintCSRFToken now rand),
        ⟨some (mintCSRFToken now rand), some (now + 30 * 60 * 1000)⟩)
    | _, _ =>
      (some (mintCSRFToken now rand),
        ⟨some (mintCSRFToken now rand), some (now + 30 * 60 * 1000)⟩)

/-- `SecureSheets.clearCSRFToken()`: drops the cached token and expiry. -/
def clearCSRFToken (_s : CSRFState) : CSRFState := ⟨none, none⟩

end V120

namespace Client381

/-- `SecureSheetsClient.generateCSRFToken(origin, secret)` of the v3.8.1
client: a fresh `timestamp:signature` token on every call. -/
def generateCSRFToken (hmac : String → String → String) (now : Nat)
    (origin secret : String) : String :=
  Nat.repr now ++ ":" ++ hmac (Nat.repr now ++ ":" ++ origin) secret

end Client381

theorem mintCSRFToken_inj {n₁ n₂ : Nat} {r₁ r₂ : String}
    (h : mintCSRFToken n₁ r₁ = mintCSRFToken n₂ r₂) : n₁ = n₂ := by
  have hdata := congrArg String.data h
  simp only [mintCSRFToken, String.data_append, List.append_assoc] at hdata
  replace hdata := List.append_cancel_left hdata
  rw [repr_data, repr_data] at hdata
  have hsep : Nat.toDigits 10 n₁ ++ '_' :: r₁.data
      = Nat.toDigits 10 n₂ ++ '_' :: r₂.data := by
    simpa using hdata
  exact toDigits_inj n₁ n₂
    (digits_sep_cancel _ _ _ _ (toDigits_all_digits n₁) (toDigits_all_digits n₂)
      hsep).1

/-- C8 counterexample.  The claim covers the v3.8.1 client's CSRF
machinery (`generateCSRFToken`, cited in its sources) and asserts that
tokens attached to successive requests within the 30-minute lifetime are
identical.  In the v3.8.1 client every POST mints a fresh
timestamp-prefixed token, so two requests one second apart — far inside
any 30-minute window — carry different tokens. -/
theorem c8_csrf_counterexample :
    Client381.generateCSRFToken (fun m _ => m) 1000 "o" "s"
      ≠ Client381.generateCSRFToken (fun m _ => m) 2000 "o" "s"
    ∧ (2000 : Nat) < 1000 + 30 * 60 * 1000 := by
  constructor
  · decide
  · decide

/-- C8 as amended.  For `getCSRFToken` (v1.2.0/v1.3.0) the claim holds:
with CSRF enabled, every call made while `now` is before the stored
expiry returns the identical cached token without regenerating it; a call
at or after the expiry, or after `clearCSRFToken()`, mints and stores a
new token (with expiry `now + 30` minutes) that differs from the old one;
and the call returns `null` when CSRF is disabled.  Only the v3.8.1
client (see the counterexample) regenerates a token per request. -/
theorem c8_csrf_amended :
    (∀ (now : Nat) (rand : String) (s : CSRFState) (t : String) (e : Nat),
      s.csrfToken = some t → s.csrfExpiry = some e → now < e →
      V120.getCSRFToken true now rand s = (some t, s))
    ∧ (∀ (now : Nat) (rand : String) (s : CSRFState),
        V120.getCSRFToken false now rand s = (none, s))
    ∧ (∀ (now : Nat) (rand : String) (s : CSRFState) (n₀ : Nat) (r₀ : String),
        s.csrfToken = some (mintCSRFToken n₀ r₀) →
        s.csrfExpiry = some (n₀ + 30 * 60 * 1000) →
        n₀ + 30 * 60 * 1000 ≤ now →
        V120.getCSRFToken true now rand s
          = (some (mintCSRFToken now rand),
             ⟨some (mintCSRFToken now rand), some (now + 30 * 60 * 1000)⟩)
        ∧ mintCSRFToken now rand ≠ mintCSRFToken n₀ r₀)
    ∧ (∀ (now : Nat) (rand : String) (s : CSRFState),
        V120.getCSRFToken true now rand (V120.clearCSRFToken s)
          = (some (mintCSRFToken now rand),
             ⟨some (mintCSRFToken now rand), some (now + 30 * 60 * 1000)⟩)) := by
  refine ⟨?_, ?_, ?_, ?_⟩
  · intro now rand s t e ht he hlt
    unfold V120.getCSRFToken
    rw [ht, he]
    simp [hlt]
  · intro now rand s
    unfold V120.getCSRFToken
    simp
  · intro now rand s n₀ r₀ ht he hexp
    constructor
    · unfold V120.getCSRFToken
      rw [ht, he]
      have : ¬ (now < n₀ + 30 * 60 * 1000) := by omega
      simp [this]
    · intro hc
      have := mintCSRFToken_inj hc
      omega
  · intro now rand s
    unfold V120.getCSRFToken V120.clearCSRFToken
    simp

/-- C8 witness: reuse within the lifetime and regeneration at expiry, at
concrete times. -/
theorem c8_csrf_amended_witness :
    V120.getCSRFToken true 1000 "r1" ⟨some "tok", some 2000⟩
      = (some "tok", ⟨some "tok", some 2000⟩)
    ∧ (V120.getCSRFToken true 1800000 "r1"
          ⟨some (mintCSRFToken 0 "r0"), some (0 + 30 * 60 * 1000)⟩
        = (some (mintCSRFToken 1800000 "r1"),
           ⟨some (mintCSRFToken 1800000 "r1"), some (1800000 + 30 * 60 * 1000)⟩)
      ∧ mintCSRFToken 1800000 "r1" ≠ mintCSRFToken 0 "r0") := by
  constructor
  · exact c8_csrf_amended.1 1000 "r1" ⟨some "tok", some 2000⟩ "tok" 2000
      rfl rfl (by decide)
  · exact c8_csrf_amended.2.2.1 1800000 "r1"
      ⟨some (mintCSRFToken 0 "r0"), some (0 + 30 * 60 * 1000)⟩ 0 "r0"
      rfl rfl (by decide)

/-! ### Value rendering in the canonical signature string (C9) -/

theorem keys_replace (pre post : JSObj) (k : String) (v w : JSVal) :
    (pre ++ (k, v) :: post).map Prod.fst
      = (pre ++ (k, w) :: post).map Prod.fst := by
  simp

theorem lookup_replace_ne (pre : JSObj) (key k : String) (v w : JSVal)
    (post : JSObj) (hk : key ≠ k) :
    (pre ++ (k, v) :: post).lookup key = (pre ++ (k, w) :: post).lookup key := by
  induction pre with
  | nil =>
    simp only [List.nil_append, List.lookup]
    rw [beq_false_of_ne hk]
  | cons a rest ih =>
    simp only [List.cons_append, List.lookup]
    cases key == a.1 <;> simp [ih]

theorem lookup_replace_self (pre : JSObj) (k : String) (v : JSVal)
    (post : JSObj) (hnp : k ∉ pre.map Prod.fst) :
    (pre ++ (k, v) :: post).lookup k = some v := by
  induction pre with
  | nil => simp [List.lookup]
  | cons a rest ih =>
    simp only [List.map_cons, List.mem_cons] at hnp
    simp only [List.cons_append, List.lookup]
    rw [beq_false_of_ne (fun hc => hnp (Or.inl hc))]
    exact ih (fun hc => hnp (Or.inr hc))

theorem canonicalString_replace (render : JSVal → String) (pre post : JSObj)
    (k : String) (v w : JSVal)
    (nd : ((pre ++ (k, v) :: post).map Prod.fst).Nodup)
    (hvw : render v = render w) :
    canonicalString render (pre ++ (k, v) :: post)
      = canonicalString render (pre ++ (k, w) :: post) := by
  have hnp : k ∉ pre.map Prod.fst := by
    have hnd' : (pre.map Prod.fst ++ k :: post.map Prod.fst).Nodup := by
      simpa using nd
    have hdisj := (List.nodup_append.mp hnd').2.2
    intro hmem
    exact hdisj hmem (List.mem_cons_self k _)
  have hkeys : sortedKeys (pre ++ (k, w) :: post)
      = sortedKeys (pre ++ (k, v) :: post) := by
    unfold sortedKeys
    rw [keys_replace pre post k v w]
  unfold canonicalString
  rw [hkeys]
  congr 1
  refine List.map_congr_left ?_
  intro key _
  by_cases hk : key = k
  · subst hk
    unfold objGet
    rw [lookup_replace_self pre key v post hnp,
      lookup_replace_self pre key w post hnp]
    simp only [Option.getD_some]
    rw [hvw]
  · unfold objGet
    rw [lookup_replace_ne pre key k v w post hk]

/-- C9 counterexample.  The claim says every signature function renders a
null parameter value as the empty string, so the canonical string holds
`"key="`.  In `createSignature` (v1.0.0, and the identical v3.8.1 copy)
the value is interpolated directly, so for `{a: null}` the canonical
string is `"a=null"`, not `"a="`. -/
theorem c9_null_render_counterexample :
    Client100.signatureString [("a", JSVal.vNull)] = "a=null"
    ∧ "a=null" ≠ ("a=" : String) := by
  constructor
  · have hkeys : sortedKeys [("a", JSVal.vNull)] = ["a"] := by
      simp [sortedKeys]
    unfold Client100.signatureString canonicalString
    rw [hkeys]
    rfl
  · decide

/-- C9 as amended.  In `generateSignature` (v1.3.0) a null or undefined
(absent) value is rendered as the empty string, exactly as the claim
says: replacing such a value by the explicit empty string leaves the
canonical string unchanged.  In `createSignature` (v1.0.0 / v3.8.1),
values are interpolated directly: null renders as the string `"null"` and
undefined as `"undefined"`. -/
theorem c9_value_render_amended (pre post : JSObj) (k : String)
    (nd : ((pre ++ (k, JSVal.vNull) :: post).map Prod.fst).Nodup) :
    V130.signatureString (pre ++ (k, JSVal.vNull) :: post)
      = V130.signatureString (pre ++ (k, JSVal.vStr "") :: post)
    ∧ V130.signatureString (pre ++ (k, JSVal.vUndefined) :: post)
      = V130.signatureString (pre ++ (k, JSVal.vStr "") :: post)
    ∧ Client100.signatureString (pre ++ (k, JSVal.vNull) :: post)
      = Client100.signatureString (pre ++ (k, JSVal.vStr "null") :: post)
    ∧ Client100.signatureString (pre ++ (k, JSVal.vUndefined) :: post)
      = Client100.signatureString (pre ++ (k, JSVal.vStr "undefined") :: post) := by
  have ndU : ((pre ++ (k, JSVal.vUndefined) :: post).map Prod.fst).Nodup := by
    rw [keys_replace pre post k JSVal.vUndefined JSVal.vNull]
    exact nd
  refine ⟨?_, ?_, ?_, ?_⟩
  · exact canonicalString_replace stringOrEmpty pre post k _ _ nd rfl
  · exact canonicalString_replace stringOrEmpty pre post k _ _ ndU rfl
  · exact canonicalString_replace templateToString pre post k _ _ nd rfl
  · exact canonicalString_replace templateToString pre post k _ _ ndU rfl

/-- C9 witness: a two-key object with a null value under key `a`. -/
theorem c9_value_render_amended_witness :
    V130.signatureString [("b", JSVal.vStr "x"), ("a", JSVal.vNull)]
      = V130.signatureString [("b", JSVal.vStr "x"), ("a", JSVal.vStr "")]
    ∧ V130.signatureString [("b", JSVal.vStr "x"), ("a", JSVal.vUndefined)]
      = V130.signatureString [("b", JSVal.vStr "x"), ("a", JSVal.vStr "")]
    ∧ Client100.signatureString [("b", JSVal.vStr "x"), ("a", JSVal.vNull)]
      = Client100.signatureString [("b", JSVal.vStr "x"), ("a", JSVal.vStr "null")]
    ∧ Client100.signatureString [("b", JSVal.vStr "x"), ("a", JSVal.vUndefined)]
      = Client100.signatureString
          [("b", JSVal.vStr "x"), ("a", JSVal.vStr "undefined")] :=
  c9_value_render_amended [("b", JSVal.vStr "x")] [] "a" (by decide)

/-! ### Webhook signature verification (C10)

`verifyWebhookSignature` is the same code in v1.2.0 (lines 822-845) and
v1.3.0 (lines 1131-1153).  `computeHMAC` throws when the CryptoJS global
is absent; that failure mode is modelled by the `Option` oracle, and the
surrounding try/catch turns any such failure into `false`. -/

/-- `SecureSheets.computeHMAC(message, secret)`: `.error ()` models the
`CryptoJS is required` throw. -/
def computeHMAC (cryptoJS : Option (String → String → String))
    (message secret : String) : Except Unit String :=
  match cryptoJS with
  | none => .error ()
  | some hmacSHA256 => .ok (hmacSHA256 message secret)

/-- The constant-time comparison accumulator:
`result |= a.charCodeAt(i) ^ b.charCodeAt(i)` folded over the characters. -/
def xorAccum (a b : String) : Nat :=
  (a.data.zip b.data).foldl (fun acc p => acc ||| (p.1.toNat ^^^ p.2.toNat)) 0

/-- `SecureSheets.verifyWebhookSignature(payload, signature, secret)`:
false on any missing/empty argument; false when HMAC computation fails
(caught); otherwise a length check followed by the XOR-accumulation
comparison. -/
def verifyWebhookSignature (cryptoJS : Option (String → String → String))
    (payload signature secret : String) : Bool :=
  if payload = "" || signature = "" || secret = "" then false
  else
    match computeHMAC cryptoJS payload secret with
    | .error _ => false
    | .ok expectedSignature =>
      if signature.length ≠ expectedSignature.length then false
      else xorAccum signature expectedSignature = 0

theorem or_eq_zero (x y : Nat) (h : x ||| y = 0) : x = 0 ∧ y = 0 := by
  constructor <;> apply Nat.zero_of_testBit_eq_false <;> intro i <;>
    have hx := congrArg (Nat.testBit · i) h <;>
    simp only [Nat.testBit_lor, Nat.zero_testBit, Bool.or_eq_false_iff] at hx
  · exact hx.1
  · exact hx.2

theorem xorAccum_fold_zero :
    ∀ (l : List (Char × Char)) (acc : Nat),
      (l.foldl (fun acc p => acc ||| (p.1.toNat ^^^ p.2.toNat)) acc = 0
        ↔ acc = 0 ∧ ∀ p ∈ l, p.1 = p.2) := by
  intro l
  induction l with
  | nil => intro acc; simp
  | cons p rest ih =>
    intro acc
    rw [List.foldl_cons, ih]
    constructor
    · rintro ⟨hacc, hrest⟩
      obtain ⟨h₁, h₂⟩ := or_eq_zero _ _ hacc
      have hp : p.1 = p.2 := by
        have := Nat.xor_eq_zero.mp h₂
        rw [← Char.ofNat_toNat p.1, ← Char.ofNat_toNat p.2, this]
      exact ⟨h₁, by
        intro q hq
        rcases List.mem_cons.mp hq with h | h
        · rw [h]; exact hp
        · exact hrest q h⟩
    · rintro ⟨hacc, hall⟩
      subst hacc
      have hp := hall p (List.mem_cons_self p rest)
      refine ⟨?_, fun q hq => hall q (List.mem_cons_of_mem _ hq)⟩
      simp [hp]

theorem zip_all_eq :
    ∀ (l₁ l₂ : List Char), l₁.length = l₂.length →
      ((∀ p ∈ l₁.zip l₂, p.1 = p.2) ↔ l₁ = l₂) := by
  intro l₁
  induction l₁ with
  | nil =>
    intro l₂ hlen
    cases l₂ with
    | nil => simp
    | cons c t => simp at hlen
  | cons c t ih =>
    intro l₂ hlen
    cases l₂ with
    | nil => simp at hlen
    | cons c' t' =>
      simp only [List.length_cons, Nat.add_right_cancel_iff] at hlen
      simp only [List.zip_cons_cons, List.mem_cons, List.cons.injEq]
      constructor
      · intro hall
        refine ⟨hall (c, c') (Or.inl rfl), ?_⟩
        exact (ih t' hlen).mp (fun p hp => hall p (Or.inr hp))
      · rintro ⟨hc, ht⟩ p hp
        rcases hp with h | h
        · rw [h]; exact hc
        · exact ((ih t' hlen).mpr ht) p h

theorem xorAccum_eq_zero_iff (a b : String) (hlen : a.length = b.length) :
    xorAccum a b = 0 ↔ a = b := by
  unfold xorAccum
  rw [xorAccum_fold_zero]
  have hdata : a.data.length = b.data.length := hlen
  constructor
  · rintro ⟨_, hall⟩
    exact String.ext ((zip_all_eq a.data b.data hdata).mp hall)
  · intro hab
    subst hab
    exact ⟨rfl, (zip_all_eq a.data a.data rfl).mpr rfl⟩

/-- C10.  `verifyWebhookSignature` returns false whenever any of payload,
signature, or secret is empty; it returns false (instead of throwing)
when the HMAC primitive is unavailable; and with all arguments non-empty
it returns true exactly when the supplied signature string equals the
hex-encoded HMAC digest of the payload under the secret, character for
character.  Being a total Boolean function of its inputs, it never
throws. -/
theorem c10_verify_webhook (cryptoJS : Option (String → String → String))
    (payload signature secret : String) :
    ((payload = "" ∨ signature = "" ∨ secret = "") →
      verifyWebhookSignature cryptoJS payload signature secret = false)
    ∧ (cryptoJS = none →
        verifyWebhookSignature cryptoJS payload signature secret = false)
    ∧ (∀ hmacSHA256, cryptoJS = some hmacSHA256 →
        payload ≠ "" → signature ≠ "" → secret ≠ "" →
        (verifyWebhookSignature cryptoJS payload signature secret = true
          ↔ signature = hmacSHA256 payload secret)) := by
  refine ⟨?_, ?_, ?_⟩
  · intro h
    unfold verifyWebhookSignature
    rcases h with h | h | h <;> simp [h]
  · intro h
    subst h
    unfold verifyWebhookSignature computeHMAC
    split <;> simp
  · intro hmacSHA256 hc hp hs hsec
    subst hc
    unfold verifyWebhookSignature computeHMAC
    rw [if_neg (by simp [hp, hs, hsec])]
    simp only []
    by_cases hlen : signature.length = (hmacSHA256 payload secret).length
    · rw [if_neg (by omega)]
      constructor
      · intro h
        exact (xorAccum_eq_zero_iff signature (hmacSHA256 payload secret)
          hlen).mp (by simpa using h)
      · intro h
        simpa using (xorAccum_eq_zero_iff signature (hmacSHA256 payload secret)
          hlen).mpr h
    · rw [if_pos (by omega)]
      constructor
      · intro h
        exact absurd h (by simp)
      · intro h
        exact absurd (congrArg String.length h) hlen

/-- C10 witness: verification succeeds on a matching signature for a
concrete oracle and fails for an empty payload. -/
theorem c10_verify_webhook_witness :
    (verifyWebhookSignature (some (fun a b => a ++ b)) "p" "ps" "s" = true
      ↔ "ps" = "p" ++ "s")
    ∧ verifyWebhookSignature (some (fun a b => a ++ b)) "" "ps" "s" = false :=
  ⟨(c10_verify_webhook (some (fun a b => a ++ b)) "p" "ps" "s").2.2
      (fun a b => a ++ b) rfl (by decide) (by decide) (by decide),
   (c10_verify_webhook (some (fun a b => a ++ b)) "" "ps" "s").1
      (Or.inl rfl)⟩

/-! ### Request orchestrator, pre-network phase (C4, C5)

The models below embed `makeRequest` up to (but not including) the
network transmission: the configuration check (where present), parameter
validation, the rate-limit check, parameter enrichment, the cache lookup,
and signature computation.  The `fetch` call, response handling, and (for
v1.2.0) the auth-header generation lie beyond this boundary and are
irrelevant to claims C4/C5, which concern only the caller's object and
the ordering of the pre-network steps.

`Config` is the union of the configuration fields the three versions
read; each embedded function touches only the fields its version reads. -/

structure Config where
  scriptUrl : String
  apiToken : String
  hmacSecret : String
  origin : String
  rateLimitEnabled : Bool
  maxRequests : Nat
  enableCache : Bool
  enableCSRF : Bool
  cacheTimeout : Nat
deriving Repr

inductive ReqError where
  | notConfigured
  | invalidParams
  | rateLimited (resetsAt : Nat)
deriving DecidableEq, Repr

inductive PreOutcome where
  | cacheHit (data : JSObj)
  | send (requestParams : JSObj)
  | proceedToAuth (queryParams : JSObj)
deriving DecidableEq, Repr

/-- Result of the pre-network phase: the outcome (or error), the caller's
parameter object as it stands after the call (equal to the input when the
implementation enriches a copy, the enriched object when it mutates in
place), and the rate-limit and cache state. -/
structure PreResult where
  res : Except ReqError PreOutcome
  callerParams : JSObj
  rl : RateState
  cache : CacheMap

namespace Client100

/-- `SecureSheets.makeRequest(params, options)` of v1.0.0, pre-network
phase (lines 222-254): config check, params check, rate limit, enrichment
of a copy `{...params}` with token/timestamp/referrer/origin, cache
lookup (GET requests only, i.e. no truthy `action` field), signature.
`params?` is `none` when the caller passed a non-object. -/
def makeRequestPre (hmac : String → String → String) (cfg : Config)
    (now : Nat) (origin : String) (params? : Option JSObj) (useCache : Bool)
    (rl : RateState) (cache : CacheMap) : PreResult :=
  if cfg.scriptUrl = "" ∨ cfg.apiToken = "" ∨ cfg.hmacSecret = "" then
    ⟨.error .notConfigured, params?.getD [], rl, cache⟩
  else
    match params? with
    | none => ⟨.error .invalidParams, [], rl, cache⟩
    | some params =>
      match checkRateLimit cfg.rateLimitEnabled cfg.maxRequests now rl with
      | .error r => ⟨.error (.rateLimited r), params, rl, cache⟩
      | .ok rl1 =>
        match (if useCache && !(jsTruthy (objGet
            (objSet (objSet (objSet (objSet params "token" (.vStr cfg.apiToken))
              "timestamp" (.vStr (Nat.repr now))) "referrer" (.vStr origin))
              "origin" (.vStr origin)) "action")) then
            getCached cfg.enableCache now cache
              (jsonStringify
                (objSet (objSet (objSet (objSet params "token" (.vStr cfg.apiToken))
                  "timestamp" (.vStr (Nat.repr now))) "referrer" (.vStr origin))
                  "origin" (.vStr origin)))
          else (none, cache)) with
        | (some hit, cache1) => ⟨.ok (.cacheHit hit), params, rl1, cache1⟩
        | (none, cache1) =>
          ⟨.ok (.send
            (objSet
              (objSet (objSet (objSet (objSet params "token" (.vStr cfg.apiToken))
                "timestamp" (.vStr (Nat.repr now))) "referrer" (.vStr origin))
                "origin" (.vStr origin))
              "signature"
              (.vStr (createSignature hmac
                (objSet (objSet (objSet (objSet params "token" (.vStr cfg.apiToken))
                  "timestamp" (.vStr (Nat.repr now))) "referrer" (.vStr origin))
                  "origin" (.vStr origin))
                cfg.hmacSecret)))),
            params, rl1, cache1⟩

end Client100

namespace V120

/-- `SecureSheets.makeRequest(action, params, options)` of v1.2.0,
pre-network phase (lines 488-508): no configuration check at all — the
rate limiter runs first, then the cache lookup keyed by
`action + ':' + JSON.stringify(params)`, then the query object
`{action, ...params}` is built and the call proceeds to auth-header
generation and the network. -/
def makeRequestPre (cfg : Config) (now : Nat) (action : String)
    (params : JSObj) (useCache : Bool) (rl : RateState) (cache : CacheMap) :
    PreResult :=
  match checkRateLimit cfg.rateLimitEnabled cfg.maxRequests now rl with
  | .error r => ⟨.error (.rateLimited r), params, rl, cache⟩
  | .ok rl1 =>
    match (if useCache then
        getCached now cache (action ++ ":" ++ jsonStringify params)
      else (none, cache)) with
    | (some hit, cache1) => ⟨.ok (.cacheHit hit), params, rl1, cache1⟩
    | (none, cache1) =>
      ⟨.ok (.proceedToAuth (objMerge [("action", .vStr action)] params)),
        params, rl1, cache1⟩

/-- The CSRF enrichment step of `SecureSheets.makePostRequest` of v1.2.0
(lines 553-558): with CSRF enabled, `body.csrfToken = getCSRFToken()`
writes the token into the caller's body object.  Returns the caller's
body object after the call and the updated CSRF state. -/
def makePostBodyAfter (rand : String) (enableCSRF : Bool) (now : Nat)
    (csrf : CSRFState) (body : JSObj) : JSObj × CSRFState :=
  if enableCSRF then
    match getCSRFToken true now rand csrf with
    | (some t, csrf1) => (objSet body "csrfToken" (.vStr t), csrf1)
    | (none, csrf1) => (objSet body "csrfToken" .vNull, csrf1)
  else (body, csrf)

end V120

namespace V130

/-- `SecureSheets.makeRequest(params, options)` of v1.3.0, pre-network
phase (lines 792-824): rate limit first (no configuration check), then
`params.token = ...`, `params.origin = ...` (when configured),
`params.timestamp = ...` and `params.signature = ...` assigned directly
on the caller's object, with the cache lookup keyed by the enriched
object in between. -/
def makeRequestPre (hmac : String → String → String) (cfg : Config)
    (now : Nat) (nowIso : String) (params : JSObj) (useCache : Bool)
    (rl : RateState) (cache : CacheMap) : PreResult :=
  match checkRateLimit cfg.rateLimitEnabled cfg.maxRequests now rl with
  | .error r => ⟨.error (.rateLimited r), params, rl, cache⟩
  | .ok rl1 =>
    match (if useCache then
        V120.getCached now cache
          (jsonStringify
            (objSet
              (if cfg.origin ≠ "" then
                objSet (objSet params "token" (.vStr cfg.apiToken))
                  "origin" (.vStr cfg.origin)
              else objSet params "token" (.vStr cfg.apiToken))
              "timestamp" (.vStr nowIso)))
      else (none, cache)) with
    | (some hit, cache1) =>
      ⟨.ok (.cacheHit hit),
        objSet
          (if cfg.origin ≠ "" then
            objSet (objSet params "token" (.vStr cfg.apiToken))
              "origin" (.vStr cfg.origin)
          else objSet params "token" (.vStr cfg.apiToken))
          "timestamp" (.vStr nowIso),
        rl1, cache1⟩
    | (none, cache1) =>
      ⟨.ok (.send
        (objSet
          (objSet
            (if cfg.origin ≠ "" then
              objSet (objSet params "token" (.vStr cfg.apiToken))
                "origin" (.vStr cfg.origin)
            else objSet params "token" (.vStr cfg.apiToken))
            "timestamp" (.vStr nowIso))
          "signature"
          (.vStr (generateSignature hmac cfg.hmacSecret
            (objSet
              (if cfg.origin ≠ "" then
                objSet (objSet params "token" (.vStr cfg.apiToken))
                  "origin" (.vStr cfg.origin)
              else objSet params "token" (.vStr cfg.apiToken))
              "timestamp" (.vStr nowIso)))))),
        objSet
          (objSet
            (if cfg.origin ≠ "" then
              objSet (objSet params "token" (.vStr cfg.apiToken))
                "origin" (.vStr cfg.origin)
            else objSet params "token" (.vStr cfg.apiToken))
            "timestamp" (.vStr nowIso))
          "signature"
          (.vStr (generateSignature hmac cfg.hmacSecret
            (objSet
              (if cfg.origin ≠ "" then
                objSet (objSet params "token" (.vStr cfg.apiToken))
                  "origin" (.vStr cfg.origin)
              else objSet params "token" (.vStr cfg.apiToken))
              "timestamp" (.vStr nowIso)))),
        rl1, cache1⟩

end V130

/-- C4 counterexample.  The claim says the request orchestrators never
mutate the caller's parameter object.  v1.3.0's `makeRequest` assigns
`params.token`, `params.timestamp` and `params.signature` directly on the
caller's object: after a call with `{a: "1"}` the caller's object holds
four fields. -/
theorem c4_mutation_counterexample :
    (V130.makeRequestPre (fun _ _ => "sig")
        ⟨"u", "tok", "sec", "", true, 100, true, true, 300000⟩
        0 "ts" [("a", JSVal.vStr "1")] true ⟨0, 0⟩ emptyCache).callerParams
      = [("a", JSVal.vStr "1"), ("token", JSVal.vStr "tok"),
         ("timestamp", JSVal.vStr "ts"), ("signature", JSVal.vStr "sig")]
    ∧ (V130.makeRequestPre (fun _ _ => "sig")
        ⟨"u", "tok", "sec", "", true, 100, true, true, 300000⟩
        0 "ts" [("a", JSVal.vStr "1")] true ⟨0, 0⟩ emptyCache).callerParams
      ≠ [("a", JSVal.vStr "1")] := by
  constructor
  · decide
  · decide

/-- C4 as amended.  v1.0.0's `makeRequest` enriches the copy
`{...params}` and leaves the caller's object exactly as it was, and
v1.2.0's GET `makeRequest` spreads `{action, ...params}` into a fresh
object; but v1.3.0's `makeRequest` writes the auth fields into the
caller's object (see the counterexample), and v1.2.0's `makePostRequest`
with CSRF enabled writes `body.csrfToken` into the caller's body (with
CSRF disabled the body is untouched). -/
theorem c4_no_mutation_amended :
    (∀ (hmac : String → String → String) (cfg : Config) (now : Nat)
        (origin : String) (params : JSObj) (useCache : Bool) (rl : RateState)
        (cache : CacheMap),
      (Client100.makeRequestPre hmac cfg now origin (some params) useCache
          rl cache).callerParams = params)
    ∧ (∀ (cfg : Config) (now : Nat) (action : String) (params : JSObj)
        (useCache : Bool) (rl : RateState) (cache : CacheMap),
        (V120.makeRequestPre cfg now action params useCache rl cache).callerParams
          = params)
    ∧ (∀ (rand : String) (now : Nat) (csrf : CSRFState) (body : JSObj),
        (V120.makePostBodyAfter rand false now csrf body).1 = body)
    ∧ (∀ (rand : String) (now : Nat) (csrf : CSRFState) (body : JSObj),
        csrf.csrfToken = none →
        (V120.makePostBodyAfter rand true now csrf body).1
          = objSet body "csrfToken" (.vStr (mintCSRFToken now rand))) := by
  refine ⟨?_, ?_, ?_, ?_⟩
  · intro hmac cfg now origin params useCache rl cache
    unfold Client100.makeRequestPre
    split
    · simp
    · simp only []
      split
      · rfl
      · split <;> rfl
  · intro cfg now action params useCache rl cache
    unfold V120.makeRequestPre
    split
    · rfl
    · split <;> rfl
  · intro rand now csrf body
    unfold V120.makePostBodyAfter
    rw [if_neg (by simp)]
  · intro rand now csrf body hnone
    unfold V120.makePostBodyAfter
    rw [if_pos rfl]
    have htok : V120.getCSRFToken true now rand csrf
        = (some (mintCSRFToken now rand),
           ⟨some (mintCSRFToken now rand), some (now + 30 * 60 * 1000)⟩) := by
      unfold V120.getCSRFToken
      rw [hnone]
      simp
    rw [htok]

/-- C4 witness: the amended statement at concrete inputs. -/
theorem c4_no_mutation_amended_witness :
    (Client100.makeRequestPre (fun _ _ => "sig")
        ⟨"u", "tok", "sec", "", true, 100, true, true, 300000⟩
        0 "o" (some [("a", JSVal.vStr "1")]) true ⟨0, 0⟩ emptyCache).callerParams
      = [("a", JSVal.vStr "1")]
    ∧ (V120.makePostBodyAfter "r" true 7 ⟨none, none⟩ []).1
      = objSet [] "csrfToken" (.vStr (mintCSRFToken 7 "r")) :=
  ⟨c4_no_mutation_amended.1 (fun _ _ => "sig")
      ⟨"u", "tok", "sec", "", true, 100, true, true, 300000⟩
      0 "o" [("a", JSVal.vStr "1")] true ⟨0, 0⟩ emptyCache,
   c4_no_mutation_amended.2.2.2 "r" 7 ⟨none, none⟩ [] rfl⟩

/-- C5 counterexample.  The claim says every `makeRequest` variant fails
fast with a configuration error, before the rate limiter is consulted,
when endpoint/token/secret are missing.  v1.2.0's `makeRequest` has no
configuration check: invoked with a completely empty configuration it
consumes a rate-limit slot (the count rises from 0 to 1) and proceeds
toward the network. -/
theorem c5_config_check_counterexample :
    (V120.makeRequestPre ⟨"", "", "", "", true, 100, true, true, 300000⟩
        0 "getData" [] true ⟨0, 0⟩ emptyCache).res
      = .ok (.proceedToAuth [("action", JSVal.vStr "getData")])
    ∧ (V120.makeRequestPre ⟨"", "", "", "", true, 100, true, true, 300000⟩
        0 "getData" [] true ⟨0, 0⟩ emptyCache).rl = ⟨1, 0⟩
    ∧ (V120.makeRequestPre ⟨"", "", "", "", true, 100, true, true, 300000⟩
        0 "getData" [] true ⟨0, 0⟩ emptyCache).res
      ≠ .error .notConfigured := by
  refine ⟨by decide, by decide, by decide⟩

/-- C5 as amended.  Only v1.0.0's `makeRequest` verifies the
configuration: with endpoint, token or secret missing it fails with the
`Not configured` error before the rate limiter, the cache, or any network
interaction — the rate-limit and cache state are returned untouched and
no send outcome is produced.  v1.2.0 (and v1.3.0, which shares the same
structure) performs no configuration check in `makeRequest`: whenever the
limiter is enabled and under quota, the call consumes a rate-limit slot
regardless of the configuration's contents. -/
theorem c5_config_check_amended :
    (∀ (hmac : String → String → String) (cfg : Config) (now : Nat)
        (origin : String) (params? : Option JSObj) (useCache : Bool)
        (rl : RateState) (cache : CacheMap),
      (cfg.scriptUrl = "" ∨ cfg.apiToken = "" ∨ cfg.hmacSecret = "") →
      Client100.makeRequestPre hmac cfg now origin params? useCache rl cache
        = ⟨.error .notConfigured, params?.getD [], rl, cache⟩)
    ∧ (∀ (cfg : Config) (now : Nat) (action : String) (params : JSObj)
        (useCache : Bool) (rl : RateState) (cache : CacheMap),
        cfg.rateLimitEnabled = true →
        rl.requestCount < cfg.maxRequests →
        now - rl.requestWindow ≤ oneHour →
        (V120.makeRequestPre cfg now action params useCache rl cache).rl
          = ⟨rl.requestCount + 1, rl.requestWindow⟩) := by
  constructor
  · intro hmac cfg now origin params? useCache rl cache hmissing
    unfold Client100.makeRequestPre
    rw [if_pos hmissing]
  · intro cfg now action params useCache rl cache hen hunder hwind
    have hc : checkRateLimit cfg.rateLimitEnabled cfg.maxRequests now rl
        = .ok ⟨rl.requestCount + 1, rl.requestWindow⟩ := by
      unfold checkRateLimit
      rw [hen]
      have hreset : ¬ (now - rl.requestWindow > oneHour) := by omega
      simp only [Bool.not_true, Bool.false_eq_true, if_false, if_neg hreset]
      rw [if_neg (by omega)]
    unfold V120.makeRequestPre
    rw [hc]
    simp only []
    split <;> rfl

/-- C5 witness: the amended statement at concrete inputs, covering both
the v1.0.0 fail-fast path and the v1.2.0 no-check path. -/
theorem c5_config_check_amended_witness :
    Client100.makeRequestPre (fun _ _ => "sig")
        ⟨"", "t", "s", "", true, 100, true, true, 300000⟩
        0 "o" (some []) true ⟨0, 0⟩ emptyCache
      = ⟨.error .notConfigured, (some ([] : JSObj)).getD [], ⟨0, 0⟩, emptyCache⟩
    ∧ (V120.makeRequestPre ⟨"", "", "", "", true, 100, true, true, 300000⟩
        5 "getData" [] true ⟨0, 0⟩ emptyCache).rl = ⟨1, 0⟩ :=
  ⟨c5_config_check_amended.1 (fun _ _ => "sig")
      ⟨"", "t", "s", "", true, 100, true, true, 300000⟩
      0 "o" (some []) true ⟨0, 0⟩ emptyCache (Or.inl rfl),
   c5_config_check_amended.2 ⟨"", "", "", "", true, 100, true, true, 300000⟩
      5 "getData" [] true ⟨0, 0⟩ emptyCache rfl (by decide) (by decide)⟩

end SecureSheets
